import Mathlib

/-!
Verification of the agglomerative clustering core described by `proj3.h`.

The repository ships only the interface header `proj3.h`; the implementation
file `proj3.c` is absent.  Every operation below is therefore modelled from
the specification's description of the corresponding C function, keeping the
source names.  C `float` coordinates are idealised as real numbers, and the
C `int` sizes/capacities (always non-negative under the stated preconditions)
as natural numbers.  Memory allocation is idealised as always succeeding, so
`AllocationError` paths do not arise in the model.
-/

namespace Proj3

/-- Modelled from the spec: `struct obj_t` of `proj3.h` — a labelled point,
`{ id: integer, x: float, y: float }`, immutable after creation. -/
structure obj_t where
  id : Int
  x : ℝ
  y : ℝ
deriving Inhabited

/-- Modelled from the spec: `struct cluster_t` of `proj3.h` — `size` objects
currently stored, a `capacity`, and the stored objects themselves (the valid
prefix of the C backing array, as a list). -/
structure cluster_t where
  size : Nat
  capacity : Nat
  obj : List obj_t
deriving Inhabited

/-- Modelled from the spec: `CLUSTER_CHUNK`, the fixed module-wide growth
increment (`extern const int CLUSTER_CHUNK`; its value lives in the missing
`proj3.c`, the spec requires only a fixed positive constant). -/
def CLUSTER_CHUNK : Nat := 10

/-- Modelled from the spec: `init_cluster` — a cluster created empty with a
given initial capacity (storage of `cap` cells, no valid objects). -/
def init_cluster (cap : Nat) : cluster_t :=
  { size := 0, capacity := cap, obj := [] }

/-- Modelled from the spec: `clear_cluster` — releases storage and resets the
cluster to `{size = 0, capacity = 0, obj = NULL}`. -/
def clear_cluster (_c : cluster_t) : cluster_t :=
  { size := 0, capacity := 0, obj := [] }

/-- Modelled from the spec: `resize_cluster` — if `new_cap ≤ capacity` this is
a no-op (capacity never shrinks through this operation); otherwise the backing
storage grows to `new_cap`, preserving the stored objects in order. -/
def resize_cluster (c : cluster_t) (new_cap : Nat) : cluster_t :=
  if new_cap ≤ c.capacity then c else { c with capacity := new_cap }

/-- Modelled from the spec: `append_cluster` — when `size = capacity` the
cluster first grows by `CLUSTER_CHUNK`, then the object is placed at the end
and `size` increases by one. -/
def append_cluster (c : cluster_t) (o : obj_t) : cluster_t :=
  let c' := if c.size = c.capacity then resize_cluster c (c.capacity + CLUSTER_CHUNK) else c
  { c' with size := c'.size + 1, obj := c'.obj ++ [o] }

/-- Boolean comparison of objects by their id, the order used by
`sort_cluster`. -/
def le_id (a b : obj_t) : Bool :=
  decide (a.id ≤ b.id)

/-- Modelled from the spec: `sort_cluster` — reorders the objects of a cluster
into ascending order of id. -/
def sort_cluster (c : cluster_t) : cluster_t :=
  { c with obj := c.obj.mergeSort le_id }

/-- Modelled from the spec: `merge_clusters` — appends every object of the
second cluster to the first (in order, growing capacity as needed via
`append_cluster`), then sorts the first cluster by id. -/
def merge_clusters (c1 c2 : cluster_t) : cluster_t :=
  sort_cluster (c2.obj.foldl append_cluster c1)

/-- Modelled from the spec: `remove_cluster` — clears the cluster at `idx`,
shifts every later cluster one slot left, and returns the new count
`narr - 1`.  The shift is `List.eraseIdx`; the clearing itself is a storage
release with no observable effect on the remaining values. -/
def remove_cluster (carr : List cluster_t) (narr idx : Nat) : List cluster_t × Nat :=
  (carr.eraseIdx idx, narr - 1)

/-- Modelled from the spec: `obj_distance` — Euclidean distance
`sqrt((x1-x2)² + (y1-y2)²)` between two objects. -/
noncomputable def obj_distance (o1 o2 : obj_t) : ℝ :=
  Real.sqrt ((o1.x - o2.x) ^ 2 + (o1.y - o2.y) ^ 2)

/-- Modelled from the spec: `cluster_distance` — arithmetic mean of
`obj_distance` over all `length(c1) × length(c2)` ordered pairs of objects. -/
noncomputable def cluster_distance (c1 c2 : cluster_t) : ℝ :=
  (c1.obj.map (fun a => (c2.obj.map (fun b => obj_distance a b)).sum)).sum
    / ((c1.obj.length : ℝ) * (c2.obj.length : ℝ))

/-- All unordered pairs of distinct indices below `n`, in the scan order of
`find_neighbours`: outer index ascending, inner index ascending within each
outer index. -/
def pairList (n : Nat) : List (Nat × Nat) :=
  (List.range n).flatMap fun i =>
    ((List.range n).filter (fun j => decide (i < j))).map (fun j => (i, j))

/-- Distance of the pair of clusters at the given indices of the array. -/
noncomputable def pair_distance (carr : List cluster_t) (p : Nat × Nat) : ℝ :=
  cluster_distance (carr.getD p.1 default) (carr.getD p.2 default)

open Classical in
/-- Strict-improvement scan: keeps the current best pair and replaces it only
when a later pair has strictly smaller measure, so the first pair attaining
the minimum wins ties. -/
noncomputable def foldMin (d : Nat × Nat → ℝ) (best : Nat × Nat) :
    List (Nat × Nat) → Nat × Nat
  | [] => best
  | p :: ps => if d p < d best then foldMin d p ps else foldMin d best ps

/-- Modelled from the spec: `find_neighbours` — scans all unordered pairs of
distinct indices in scan order, computing `cluster_distance` for each, and
returns the earliest pair whose distance is not exceeded by any other pair.
The spec defines the result only when at least two clusters exist; with fewer
there is no pair to return, which the model renders as `none`. -/
noncomputable def find_neighbours (carr : List cluster_t) : Option (Nat × Nat) :=
  match pairList carr.length with
  | [] => none
  | p :: ps => some (foldMin (pair_distance carr) p ps)

/-- Modelled from the spec: the merge phase of one `MergeReduce` step — the
cluster at index `a` absorbs the objects of the cluster at index `b`
(`merge_clusters(&carr[a], &carr[b])` in the header's terms); index `b` is
untouched until the subsequent removal. -/
def merge_into (carr : List cluster_t) (a b : Nat) : List cluster_t :=
  carr.set a (merge_clusters (carr.getD a default) (carr.getD b default))

/-- Modelled from the spec: one iteration of the `MergeReduce` driver loop —
find the closest pair `(a, b)`, merge `b` into `a`, remove slot `b`. -/
noncomputable def mergeStep (carr : List cluster_t) : List cluster_t :=
  match find_neighbours carr with
  | none => carr
  | some (a, b) => (remove_cluster (merge_into carr a b) carr.length b).1

/-- Fuel-indexed unfolding of the driver loop; each productive step removes
one cluster, so `carr.length` steps of fuel always suffice. -/
noncomputable def mergeReduceAux : Nat → List cluster_t → Nat → List cluster_t
  | 0, carr, _ => carr
  | fuel + 1, carr, target =>
    if carr.length ≤ target then carr else mergeReduceAux fuel (mergeStep carr) target

/-- Modelled from the spec: the `MergeReduce` driver loop — repeatedly find
neighbours, merge, and remove, until the collection's length reaches the
target count. -/
noncomputable def mergeReduce (carr : List cluster_t) (target : Nat) : List cluster_t :=
  mergeReduceAux carr.length carr target

/-- Total number of stored objects across a collection of clusters. -/
def total_points (carr : List cluster_t) : Nat :=
  (carr.map (fun c => c.obj.length)).sum

/-- Scan order on index pairs: `(i, j)` is visited before `(k, l)` when the
outer index is smaller, or the outer indices agree and the inner is smaller. -/
def scanLt (p q : Nat × Nat) : Prop :=
  p.1 < q.1 ∨ (p.1 = q.1 ∧ p.2 < q.2)

/-- An editing step on a single cluster, as allowed by claim C3's
"sequence of append, resize, merge, sort, and clear operations". -/
inductive ClusterOp where
  | append (o : obj_t)
  | resize (n : Nat)
  | mergeWith (c : cluster_t)
  | sort
  | clear

/-- Interpretation of a `ClusterOp` by the modelled operations. -/
def applyOp (c : cluster_t) : ClusterOp → cluster_t
  | .append o => append_cluster c o
  | .resize n => resize_cluster c n
  | .mergeWith c2 => merge_clusters c c2
  | .sort => sort_cluster c
  | .clear => clear_cluster c

/-- First point of the end-to-end scenario: `(1, 0, 0)`. -/
def pA : obj_t := ⟨1, 0, 0⟩

/-- Second point of the end-to-end scenario: `(2, 10, 0)`. -/
def pB : obj_t := ⟨2, 10, 0⟩

/-- Third point of the end-to-end scenario: `(3, 11, 0)`. -/
def pC : obj_t := ⟨3, 11, 0⟩

/-- A singleton cluster holding one object, as produced by the loader. -/
def singleton_cluster (o : obj_t) : cluster_t := ⟨1, 1, [o]⟩

/-- The end-to-end scenario's initial collection: three singleton clusters. -/
def demo_input : List cluster_t :=
  [singleton_cluster pA, singleton_cluster pB, singleton_cluster pC]

/-! ### Basic facts about the single-cluster operations -/

theorem resize_cluster_obj (c : cluster_t) (n : Nat) :
    (resize_cluster c n).obj = c.obj := by
  unfold resize_cluster
  split <;> rfl

theorem resize_cluster_size (c : cluster_t) (n : Nat) :
    (resize_cluster c n).size = c.size := by
  unfold resize_cluster
  split <;> rfl

theorem append_cluster_obj (c : cluster_t) (o : obj_t) :
    (append_cluster c o).obj = c.obj ++ [o] := by
  unfold append_cluster
  split <;> simp [resize_cluster_obj]

theorem append_cluster_size (c : cluster_t) (o : obj_t) :
    (append_cluster c o).size = c.size + 1 := by
  unfold append_cluster
  split <;> simp [resize_cluster_size]

theorem append_cluster_capacity_full (c : cluster_t) (o : obj_t)
    (h : c.size = c.capacity) :
    (append_cluster c o).capacity = c.capacity + CLUSTER_CHUNK := by
  unfold append_cluster resize_cluster
  rw [if_pos h, if_neg (by simp [CLUSTER_CHUNK])]

theorem append_cluster_capacity_spare (c : cluster_t) (o : obj_t)
    (h : c.size ≠ c.capacity) :
    (append_cluster c o).capacity = c.capacity := by
  unfold append_cluster
  rw [if_neg h]

theorem foldl_append_obj (l : List obj_t) (c : cluster_t) :
    (l.foldl append_cluster c).obj = c.obj ++ l := by
  induction l generalizing c with
  | nil => simp
  | cons o l ih => simp [ih, append_cluster_obj]

theorem foldl_append_size (l : List obj_t) (c : cluster_t) :
    (l.foldl append_cluster c).size = c.size + l.length := by
  induction l generalizing c with
  | nil => simp
  | cons o l ih => simp [ih, append_cluster_size]; omega

theorem le_id_trans (a b c : obj_t) : le_id a b → le_id b c → le_id a c := by
  simp only [le_id, decide_eq_true_eq]
  omega

theorem le_id_total (a b : obj_t) : le_id a b || le_id b a := by
  simp only [le_id, Bool.or_eq_true, decide_eq_true_eq]
  omega

theorem sort_cluster_perm (c : cluster_t) : List.Perm (sort_cluster c).obj c.obj :=
  c.obj.mergeSort_perm le_id

theorem sort_cluster_sorted (c : cluster_t) :
    (sort_cluster c).obj.Pairwise (fun p q => p.id ≤ q.id) := by
  have h := List.sorted_mergeSort le_id_trans le_id_total c.obj
  exact h.imp (by simp [le_id])

theorem merge_clusters_obj_perm (c1 c2 : cluster_t) :
    List.Perm (merge_clusters c1 c2).obj (c1.obj ++ c2.obj) := by
  unfold merge_clusters
  have h1 := sort_cluster_perm (c2.obj.foldl append_cluster c1)
  rw [foldl_append_obj] at h1
  exact h1

theorem merge_clusters_sorted (c1 c2 : cluster_t) :
    (merge_clusters c1 c2).obj.Pairwise (fun p q => p.id ≤ q.id) :=
  sort_cluster_sorted _

/-- C4: `append_cluster` increases `size` by exactly 1, keeps all previous
objects in order with the new object placed at the end, and when
`size = capacity` it first grows the capacity by exactly `CLUSTER_CHUNK`
(otherwise the capacity is untouched; growth cannot fail in the idealised
memory model, so the absence of failure matches the claim's only-if clause). -/
theorem append_cluster_spec (c : cluster_t) (o : obj_t) :
    (append_cluster c o).size = c.size + 1 ∧
    (append_cluster c o).obj = c.obj ++ [o] ∧
    (c.size = c.capacity →
      (append_cluster c o).capacity = c.capacity + CLUSTER_CHUNK) ∧
    (c.size ≠ c.capacity → (append_cluster c o).capacity = c.capacity) :=
  ⟨append_cluster_size c o, append_cluster_obj c o,
    append_cluster_capacity_full c o, append_cluster_capacity_spare c o⟩

/-- Witness for C4 at a concrete full cluster: appending to a freshly
initialised empty cluster (size 0 = capacity 0) adds the object at the end,
bumps the size to 1, and grows the capacity by `CLUSTER_CHUNK`. -/
theorem append_cluster_spec_witness :
    (append_cluster (init_cluster 0) ⟨1, 0, 0⟩).size = (init_cluster 0).size + 1 ∧
    (append_cluster (init_cluster 0) ⟨1, 0, 0⟩).obj = (init_cluster 0).obj ++ [⟨1, 0, 0⟩] ∧
    (append_cluster (init_cluster 0) ⟨1, 0, 0⟩).capacity =
      (init_cluster 0).capacity + CLUSTER_CHUNK :=
  ⟨(append_cluster_spec (init_cluster 0) ⟨1, 0, 0⟩).1,
    (append_cluster_spec (init_cluster 0) ⟨1, 0, 0⟩).2.1,
    (append_cluster_spec (init_cluster 0) ⟨1, 0, 0⟩).2.2.1 rfl⟩

/-- C5: `resize_cluster` with `new_cap ≤ capacity` is a no-op — size,
capacity and all stored objects are unchanged — and a growing resize
(the only other case, which always succeeds in the idealised memory model)
preserves the stored objects in order and the size. -/
theorem resize_cluster_spec (c : cluster_t) (new_cap : Nat) :
    (new_cap ≤ c.capacity → resize_cluster c new_cap = c) ∧
    (resize_cluster c new_cap).obj = c.obj ∧
    (resize_cluster c new_cap).size = c.size ∧
    (c.capacity < new_cap → (resize_cluster c new_cap).capacity = new_cap) := by
  refine ⟨fun h => ?_, resize_cluster_obj c new_cap, resize_cluster_size c new_cap,
    fun h => ?_⟩
  · unfold resize_cluster
    rw [if_pos h]
  · unfold resize_cluster
    rw [if_neg (by omega)]

/-- Witness for C5 at concrete inputs: shrinking a capacity-2 cluster to 1 is
the identity, and growing it to 3 keeps the objects and size while setting the
capacity to 3. -/
theorem resize_cluster_spec_witness :
    resize_cluster (init_cluster 2) 1 = init_cluster 2 ∧
    (resize_cluster (init_cluster 2) 3).obj = (init_cluster 2).obj ∧
    (resize_cluster (init_cluster 2) 3).size = (init_cluster 2).size ∧
    (resize_cluster (init_cluster 2) 3).capacity = 3 :=
  ⟨(resize_cluster_spec (init_cluster 2) 1).1 (by decide),
    (resize_cluster_spec (init_cluster 2) 3).2.1,
    (resize_cluster_spec (init_cluster 2) 3).2.2.1,
    (resize_cluster_spec (init_cluster 2) 3).2.2.2 (by decide)⟩

/-! ### Removal and the merge phase on the collection -/

/-- C6: with `0 ≤ idx < narr = count`, `remove_cluster` decreases the count by
exactly one, returns the new count, keeps every cluster before `idx` in place,
and shifts every cluster after `idx` one slot left, preserving their order.
The destruction of the removed cluster is a storage release, with no effect on
the surviving values. -/
theorem remove_cluster_spec (carr : List cluster_t) (idx : Nat)
    (h : idx < carr.length) :
    (remove_cluster carr carr.length idx).1.length = carr.length - 1 ∧
    (remove_cluster carr carr.length idx).2 = carr.length - 1 ∧
    (∀ k, k < idx →
      (remove_cluster carr carr.length idx).1.getD k default = carr.getD k default) ∧
    (∀ k, idx ≤ k → k < carr.length - 1 →
      (remove_cluster carr carr.length idx).1.getD k default =
        carr.getD (k + 1) default) := by
  unfold remove_cluster
  refine ⟨List.length_eraseIdx_of_lt h, rfl, fun k hk => ?_, fun k hk1 hk2 => ?_⟩
  · have hlen : k < (carr.eraseIdx idx).length := by
      rw [List.length_eraseIdx_of_lt h]; omega
    rw [List.getD_eq_getElem _ _ hlen, List.getD_eq_getElem _ _ (by omega),
      List.getElem_eraseIdx_of_lt _ _ _ _ hk]
  · have hlen : k < (carr.eraseIdx idx).length := by
      rw [List.length_eraseIdx_of_lt h]; omega
    rw [List.getD_eq_getElem _ _ hlen, List.getD_eq_getElem _ _ (by omega),
      List.getElem_eraseIdx_of_ge _ _ _ _ hk1]

/-- Witness for C6 on a concrete two-element collection, removing index 0:
the count drops to 1 and is returned, and the former second cluster shifts
into slot 0. -/
theorem remove_cluster_spec_witness :
    (remove_cluster [init_cluster 1, init_cluster 2] 2 0).1.length = 1 ∧
    (remove_cluster [init_cluster 1, init_cluster 2] 2 0).2 = 1 ∧
    (remove_cluster [init_cluster 1, init_cluster 2] 2 0).1.getD 0 default =
      [init_cluster 1, init_cluster 2].getD 1 default := by
  have h := remove_cluster_spec [init_cluster 1, init_cluster 2] 0 (by decide)
  exact ⟨h.1, h.2.1, h.2.2.2 0 (by decide) (by decide)⟩

/-- C9: the merge phase leaves the absorbed cluster's slot `b` untouched —
its size, capacity and stored objects are unchanged; the absorbed cluster is
destroyed only by the separate removal step. -/
theorem merge_into_frame (carr : List cluster_t) (a b : Nat) (hab : a ≠ b) :
    ((merge_into carr a b).getD b default).size = (carr.getD b default).size ∧
    ((merge_into carr a b).getD b default).capacity = (carr.getD b default).capacity ∧
    ((merge_into carr a b).getD b default).obj = (carr.getD b default).obj := by
  have h : (merge_into carr a b).getD b default = carr.getD b default := by
    simp [merge_into, List.getD_eq_getElem?_getD, List.getElem?_set_ne hab]
  rw [h]
  exact ⟨rfl, rfl, rfl⟩

/-- Witness for C9 on a concrete two-element collection: merging the cluster
at index 1 into the one at index 0 leaves slot 1 exactly as it was. -/
theorem merge_into_frame_witness :
    ((merge_into [init_cluster 1, init_cluster 2] 0 1).getD 1 default).size =
      ([init_cluster 1, init_cluster 2].getD 1 default).size ∧
    ((merge_into [init_cluster 1, init_cluster 2] 0 1).getD 1 default).capacity =
      ([init_cluster 1, init_cluster 2].getD 1 default).capacity ∧
    ((merge_into [init_cluster 1, init_cluster 2] 0 1).getD 1 default).obj =
      ([init_cluster 1, init_cluster 2].getD 1 default).obj :=
  merge_into_frame [init_cluster 1, init_cluster 2] 0 1 (by decide)

/-! ### The size-capacity invariant (C3) -/

theorem append_cluster_inv (c : cluster_t) (o : obj_t)
    (h : c.size ≤ c.capacity) :
    (append_cluster c o).size ≤ (append_cluster c o).capacity := by
  by_cases hfull : c.size = c.capacity
  · rw [append_cluster_size, append_cluster_capacity_full c o hfull, CLUSTER_CHUNK]
    omega
  · rw [append_cluster_size, append_cluster_capacity_spare c o hfull]
    omega

theorem foldl_append_inv (l : List obj_t) (c : cluster_t)
    (h : c.size ≤ c.capacity) :
    (l.foldl append_cluster c).size ≤ (l.foldl append_cluster c).capacity := by
  induction l generalizing c with
  | nil => exact h
  | cons o l ih => exact ih _ (append_cluster_inv c o h)

theorem applyOp_inv (c : cluster_t) (op : ClusterOp)
    (h : c.size ≤ c.capacity) :
    (applyOp c op).size ≤ (applyOp c op).capacity := by
  cases op with
  | append o => exact append_cluster_inv c o h
  | resize n =>
    show (resize_cluster c n).size ≤ (resize_cluster c n).capacity
    unfold resize_cluster
    split
    · exact h
    · next hn =>
      show c.size ≤ n
      omega
  | mergeWith c2 =>
    show (merge_clusters c c2).size ≤ (merge_clusters c c2).capacity
    unfold merge_clusters sort_cluster
    exact foldl_append_inv c2.obj c h
  | sort => exact h
  | clear => exact Nat.le_refl 0

/-- C3: starting from any cluster produced by `init_cluster` and applying any
sequence of append, resize, merge, sort and clear operations, the invariant
`size ≤ capacity` holds after each operation (any prefix of a sequence is
itself a sequence, so the statement covers every intermediate state). -/
theorem cluster_ops_invariant (cap : Nat) (ops : List ClusterOp) :
    (ops.foldl applyOp (init_cluster cap)).size ≤
      (ops.foldl applyOp (init_cluster cap)).capacity := by
  have main : ∀ (l : List ClusterOp) (c : cluster_t), c.size ≤ c.capacity →
      (l.foldl applyOp c).size ≤ (l.foldl applyOp c).capacity := by
    intro l
    induction l with
    | nil => exact fun c h => h
    | cons op l ih => exact fun c h => ih _ (applyOp_inv c op h)
  exact main ops (init_cluster cap) (Nat.zero_le cap)

/-! ### Symmetry of the cluster distance (C7) -/

theorem obj_distance_comm (o1 o2 : obj_t) :
    obj_distance o1 o2 = obj_distance o2 o1 := by
  unfold obj_distance
  ring_nf

theorem sum_map_sum_swap (f : obj_t → obj_t → ℝ) (l1 l2 : List obj_t)
    (hf : ∀ a b, f a b = f b a) :
    (l1.map (fun a => (l2.map (fun b => f a b)).sum)).sum =
      (l2.map (fun a => (l1.map (fun b => f a b)).sum)).sum := by
  induction l1 with
  | nil => simp
  | cons x l1 ih =>
    simp only [List.map_cons, List.sum_cons, ih]
    rw [List.sum_map_add]
    congr 2
    exact List.map_congr_left (fun b _ => hf x b)

/-- C7: for all non-empty clusters, `cluster_distance` is symmetric — the
mean over all ordered pairs does not depend on the argument order. -/
theorem cluster_distance_comm (c1 c2 : cluster_t)
    (_h1 : 0 < c1.size) (_h2 : 0 < c2.size) :
    cluster_distance c1 c2 = cluster_distance c2 c1 := by
  unfold cluster_distance
  rw [sum_map_sum_swap obj_distance c1.obj c2.obj obj_distance_comm,
    mul_comm ((c1.obj.length : ℝ)) ((c2.obj.length : ℝ))]

/-- Witness for C7 on two concrete non-empty singleton clusters. -/
theorem cluster_distance_comm_witness :
    cluster_distance ⟨1, 1, [⟨1, 0, 0⟩]⟩ ⟨1, 1, [⟨2, 3, 4⟩]⟩ =
      cluster_distance ⟨1, 1, [⟨2, 3, 4⟩]⟩ ⟨1, 1, [⟨1, 0, 0⟩]⟩ :=
  cluster_distance_comm ⟨1, 1, [⟨1, 0, 0⟩]⟩ ⟨1, 1, [⟨2, 3, 4⟩]⟩ (by decide) (by decide)

/-! ### Merge followed by removal preserves the points (C2) -/

theorem total_points_cons (c : cluster_t) (l : List cluster_t) :
    total_points (c :: l) = c.obj.length + total_points l := by
  simp [total_points]

theorem total_points_eraseIdx (l : List cluster_t) (i : Nat) (h : i < l.length) :
    total_points l = total_points (l.eraseIdx i) + (l.getD i default).obj.length := by
  induction l generalizing i with
  | nil => simp at h
  | cons c l ih =>
    cases i with
    | zero => simp [total_points_cons]; omega
    | succ i =>
      have hi : i < l.length := by simpa using h
      simp only [List.eraseIdx_cons_succ, total_points_cons, List.getD_cons_succ]
      rw [ih i hi]
      omega

theorem total_points_set (l : List cluster_t) (i : Nat) (v : cluster_t)
    (h : i < l.length) :
    total_points (l.set i v) + (l.getD i default).obj.length =
      total_points l + v.obj.length := by
  induction l generalizing i with
  | nil => simp at h
  | cons c l ih =>
    cases i with
    | zero => simp [total_points_cons]; omega
    | succ i =>
      have hi : i < l.length := by simpa using h
      simp only [List.set_cons_succ, total_points_cons, List.getD_cons_succ]
      have := ih i hi
      omega

theorem exists_once_of_nodup {p : obj_t} {l : List obj_t}
    (hnd : l.Nodup) (hp : p ∈ l) :
    ∃ l1 l2, l = l1 ++ p :: l2 ∧ p ∉ l1 ∧ p ∉ l2 := by
  obtain ⟨l1, l2, rfl⟩ := List.append_of_mem hp
  rw [List.nodup_append] at hnd
  obtain ⟨-, h2, hdis⟩ := hnd
  rw [List.nodup_cons] at h2
  exact ⟨l1, l2, rfl, fun hmem => hdis hmem (List.mem_cons_self p l2), h2.1⟩

/-- C2: merging the cluster at index `b` into the cluster at index `a < b` and
then removing slot `b` keeps the total point count of the collection
unchanged; every point originally in either cluster appears exactly once in
the surviving cluster (given that the two clusters' points are pairwise
distinct, as the spec assumes of well-formed input), and the surviving
cluster's points are sorted in ascending order of id. -/
theorem merge_then_remove_spec (carr : List cluster_t) (a b : Nat)
    (hab : a < b) (hb : b < carr.length)
    (_h0a : 0 < (carr.getD a default).size) (_h0b : 0 < (carr.getD b default).size)
    (hnd : ((carr.getD a default).obj ++ (carr.getD b default).obj).Nodup) :
    total_points (remove_cluster (merge_into carr a b) carr.length b).1 =
      total_points carr ∧
    (∀ p, p ∈ (carr.getD a default).obj ++ (carr.getD b default).obj →
      ∃ l1 l2,
        (((remove_cluster (merge_into carr a b) carr.length b).1.getD a default).obj
          = l1 ++ p :: l2) ∧ p ∉ l1 ∧ p ∉ l2) ∧
    ((remove_cluster (merge_into carr a b) carr.length b).1.getD a default).obj.Pairwise
      (fun p q => p.id ≤ q.id) := by
  have ha : a < carr.length := hab.trans hb
  set merged := merge_clusters (carr.getD a default) (carr.getD b default) with hmerged
  have hperm : List.Perm merged.obj
      ((carr.getD a default).obj ++ (carr.getD b default).obj) :=
    merge_clusters_obj_perm _ _
  have hafter :
      (remove_cluster (merge_into carr a b) carr.length b).1 =
        (carr.set a merged).eraseIdx b := rfl
  have hlenset : (carr.set a merged).length = carr.length := carr.length_set a merged
  have hsurv :
      ((remove_cluster (merge_into carr a b) carr.length b).1.getD a default) = merged := by
    rw [hafter]
    have hlen : a < ((carr.set a merged).eraseIdx b).length := by
      rw [List.length_eraseIdx_of_lt (by omega)]
      omega
    rw [List.getD_eq_getElem _ _ hlen,
      List.getElem_eraseIdx_of_lt _ _ _ _ hab]
    simp
  refine ⟨?_, ?_, ?_⟩
  · rw [hafter]
    have h1 : total_points (carr.set a merged) =
        total_points ((carr.set a merged).eraseIdx b) +
          ((carr.set a merged).getD b default).obj.length :=
      total_points_eraseIdx _ b (by omega)
    have h2 : total_points (carr.set a merged) +
        (carr.getD a default).obj.length =
          total_points carr + merged.obj.length :=
      total_points_set carr a merged ha
    have hbset : (carr.set a merged).getD b default = carr.getD b default := by
      simp [List.getD_eq_getElem?_getD, List.getElem?_set_ne (Nat.ne_of_lt hab)]
    have hmlen : merged.obj.length =
        (carr.getD a default).obj.length + (carr.getD b default).obj.length := by
      rw [hperm.length_eq, List.length_append]
    rw [hbset] at h1
    omega
  · intro p hp
    rw [hsurv]
    exact exists_once_of_nodup (hperm.symm.nodup hnd) (hperm.mem_iff.mpr hp)
  · rw [hsurv]
    exact merge_clusters_sorted _ _

/-- Witness for C2 on a concrete two-cluster collection of distinct singleton
points: after merging index 1 into index 0 and removing slot 1, the totals
agree, each original point occurs exactly once in the survivor, and the
survivor is sorted by id. -/
theorem merge_then_remove_spec_witness :
    total_points (remove_cluster
        (merge_into [singleton_cluster pA, singleton_cluster pB] 0 1) 2 1).1 =
      total_points [singleton_cluster pA, singleton_cluster pB] ∧
    (∀ p, p ∈ ([singleton_cluster pA, singleton_cluster pB].getD 0 default).obj ++
        ([singleton_cluster pA, singleton_cluster pB].getD 1 default).obj →
      ∃ l1 l2,
        (((remove_cluster
            (merge_into [singleton_cluster pA, singleton_cluster pB] 0 1) 2 1).1.getD
              0 default).obj = l1 ++ p :: l2) ∧ p ∉ l1 ∧ p ∉ l2) ∧
    ((remove_cluster
        (merge_into [singleton_cluster pA, singleton_cluster pB] 0 1) 2 1).1.getD
          0 default).obj.Pairwise (fun p q => p.id ≤ q.id) :=
  merge_then_remove_spec [singleton_cluster pA, singleton_cluster pB] 0 1
    (by decide) (by decide) (by decide) (by decide)
    (by
      simp only [List.getD_cons_zero, List.getD_cons_succ, singleton_cluster,
        List.singleton_append, List.nodup_cons, List.mem_singleton, List.not_mem_nil,
        not_false_iff, List.nodup_nil, and_true, List.mem_cons]
      intro h
      rcases h with h | h
      · have := congrArg obj_t.id h
        simp [pA, pB] at this
      · exact h)

/-! ### The neighbour scan (C1) -/

theorem foldMin_nil (d : Nat × Nat → ℝ) (best : Nat × Nat) :
    foldMin d best [] = best := rfl

open Classical in
theorem foldMin_cons (d : Nat × Nat → ℝ) (best p : Nat × Nat) (ps : List (Nat × Nat)) :
    foldMin d best (p :: ps) =
      if d p < d best then foldMin d p ps else foldMin d best ps := rfl

/-- The strict-improvement scan returns the first element of `best :: ps`
attaining the minimum of `d`: everything before it in the list is strictly
larger, everything after it is at least as large. -/
theorem foldMin_decomp (d : Nat × Nat → ℝ) (ps : List (Nat × Nat)) :
    ∀ best, ∃ l1 l2, best :: ps = l1 ++ (foldMin d best ps) :: l2 ∧
      (∀ q ∈ l1, d (foldMin d best ps) < d q) ∧
      (∀ q ∈ l2, d (foldMin d best ps) ≤ d q) := by
  induction ps with
  | nil =>
    intro best
    exact ⟨[], [], rfl, by simp, by simp⟩
  | cons p ps ih =>
    intro best
    by_cases hc : d p < d best
    · obtain ⟨l1, l2, heq, hl1, hl2⟩ := ih p
      have hfold : foldMin d best (p :: ps) = foldMin d p ps := by
        rw [foldMin_cons, if_pos hc]
      have hmlt : d (foldMin d p ps) < d best := by
        cases l1 with
        | nil =>
          simp only [List.nil_append] at heq
          injection heq with h1 h2
          rw [← h1]
          exact hc
        | cons x t =>
          simp only [List.cons_append] at heq
          injection heq with h1 h2
          have hpmem : p ∈ x :: t := by
            rw [h1]
            exact List.mem_cons_self x t
          exact (hl1 p hpmem).trans hc
      refine ⟨best :: l1, l2, ?_, ?_, ?_⟩
      · rw [hfold, List.cons_append, ← heq]
      · intro q hq
        rw [hfold]
        rcases List.mem_cons.mp hq with rfl | hq2
        · exact hmlt
        · exact hl1 q hq2
      · intro q hq
        rw [hfold]
        exact hl2 q hq
    · obtain ⟨l1, l2, heq, hl1, hl2⟩ := ih best
      have hfold : foldMin d best (p :: ps) = foldMin d best ps := by
        rw [foldMin_cons, if_neg hc]
      cases l1 with
      | nil =>
        simp only [List.nil_append] at heq
        injection heq with h1 h2
        refine ⟨[], p :: ps, ?_, by simp, ?_⟩
        · rw [hfold, ← h1, List.nil_append]
        · intro q hq
          rw [hfold, ← h1]
          rcases List.mem_cons.mp hq with rfl | hq2
          · exact not_lt.mp hc
          · rw [← h1] at hl2
            exact hl2 q (h2 ▸ hq2)
      | cons x t =>
        simp only [List.cons_append] at heq
        injection heq with h1 h2
        have hbmem : best ∈ x :: t := by
          rw [h1]
          exact List.mem_cons_self x t
        refine ⟨best :: p :: t, l2, ?_, ?_, ?_⟩
        · rw [hfold]
          simp only [List.cons_append]
          rw [← h2]
        · intro q hq
          rw [hfold]
          rcases List.mem_cons.mp hq with rfl | hq2
          · exact hl1 q hbmem
          · rcases List.mem_cons.mp hq2 with rfl | hq3
            · exact lt_of_lt_of_le (hl1 best hbmem) (not_lt.mp hc)
            · exact hl1 q (List.mem_cons_of_mem x hq3)
        · intro q hq
          rw [hfold]
          exact hl2 q hq

theorem mem_pairList {n : Nat} {p : Nat × Nat} :
    p ∈ pairList n ↔ p.1 < p.2 ∧ p.2 < n := by
  obtain ⟨i, j⟩ := p
  simp only [pairList, List.mem_flatMap, List.mem_map, List.mem_filter,
    List.mem_range, decide_eq_true_eq, Prod.mk.injEq]
  constructor
  · rintro ⟨a, ha, b, ⟨hb, hab⟩, rfl, rfl⟩
    exact ⟨hab, hb⟩
  · rintro ⟨hij, hjn⟩
    exact ⟨i, lt_trans hij hjn, j, ⟨hjn, hij⟩, rfl, rfl⟩

theorem pairwise_pairList (n : Nat) : (pairList n).Pairwise scanLt := by
  unfold pairList
  rw [List.pairwise_flatMap]
  constructor
  · intro a _
    rw [List.pairwise_map]
    have h1 : ((List.range n).filter (fun j => decide (a < j))).Pairwise (· < ·) :=
      (List.pairwise_lt_range n).sublist (List.filter_sublist _)
    exact h1.imp (fun hjk => Or.inr ⟨rfl, hjk⟩)
  · refine (List.pairwise_lt_range n).imp ?_
    intro a b hab x hx y hy
    rw [List.mem_map] at hx hy
    obtain ⟨j, -, rfl⟩ := hx
    obtain ⟨k, -, rfl⟩ := hy
    exact Or.inl hab

/-- C1: on a collection of at least two (non-empty) clusters,
`find_neighbours` returns indices `a < b < count` whose cluster distance is
minimal over all unordered pairs of distinct indices, and among the pairs
attaining the minimum it is the earliest in the outer-then-inner ascending
scan order. -/
theorem find_neighbours_spec (carr : List cluster_t)
    (h2 : 2 ≤ carr.length) (_hne : ∀ c ∈ carr, 0 < c.size) :
    ∃ a b, find_neighbours carr = some (a, b) ∧ a < b ∧ b < carr.length ∧
      (∀ i j, i < j → j < carr.length →
        cluster_distance (carr.getD a default) (carr.getD b default) ≤
          cluster_distance (carr.getD i default) (carr.getD j default)) ∧
      (∀ i j, i < j → j < carr.length →
        cluster_distance (carr.getD i default) (carr.getD j default) ≤
          cluster_distance (carr.getD a default) (carr.getD b default) →
        (a = i ∧ b = j) ∨ a < i ∨ (a = i ∧ b < j)) := by
  have h01 : ((0 : Nat), (1 : Nat)) ∈ pairList carr.length :=
    mem_pairList.mpr ⟨by omega, by omega⟩
  cases hpl : pairList carr.length with
  | nil =>
    rw [hpl] at h01
    simp at h01
  | cons p ps =>
    rw [hpl] at h01
    obtain ⟨l1, l2, heq, hl1, hl2⟩ := foldMin_decomp (pair_distance carr) ps p
    set m := foldMin (pair_distance carr) p ps with hm
    have hfn : find_neighbours carr = some m := by
      unfold find_neighbours
      rw [hpl]
    have hm_mem : m ∈ pairList carr.length := by
      rw [hpl, heq]
      exact List.mem_append.mpr (Or.inr (List.mem_cons_self _ _))
    have hmb := mem_pairList.mp hm_mem
    have hmin : ∀ q ∈ pairList carr.length,
        pair_distance carr m ≤ pair_distance carr q := by
      intro q hq
      rw [hpl, heq] at hq
      rcases List.mem_append.mp hq with hq1 | hq2
      · exact le_of_lt (hl1 q hq1)
      · rcases List.mem_cons.mp hq2 with rfl | hq3
        · exact le_refl _
        · exact hl2 q hq3
    have hpw : (l1 ++ m :: l2).Pairwise scanLt := by
      rw [← heq, ← hpl]
      exact pairwise_pairList carr.length
    have hafter : ∀ q ∈ l2, scanLt m q := by
      have := (List.pairwise_append.mp hpw).2.1
      exact (List.pairwise_cons.mp this).1
    refine ⟨m.1, m.2, by rw [hfn], hmb.1, hmb.2, ?_, ?_⟩
    · intro i j hij hjn
      have hq : ((i, j) : Nat × Nat) ∈ pairList carr.length :=
        mem_pairList.mpr ⟨hij, hjn⟩
      exact hmin (i, j) hq
    · intro i j hij hjn hle
      have hq : ((i, j) : Nat × Nat) ∈ pairList carr.length :=
        mem_pairList.mpr ⟨hij, hjn⟩
      rw [hpl, heq] at hq
      rcases List.mem_append.mp hq with hq1 | hq2
      · exact absurd hle (not_le.mpr (hl1 (i, j) hq1))
      · rcases List.mem_cons.mp hq2 with hq3 | hq3
        · left
          exact ⟨congrArg Prod.fst hq3.symm, congrArg Prod.snd hq3.symm⟩
        · right
          exact hafter (i, j) hq3

/-- Witness for C1 on a concrete two-cluster collection of non-empty
singleton clusters. -/
theorem find_neighbours_spec_witness :
    ∃ a b, find_neighbours [singleton_cluster pB, singleton_cluster pC] = some (a, b) ∧
      a < b ∧ b < ([singleton_cluster pB, singleton_cluster pC] : List cluster_t).length ∧
      (∀ i j, i < j → j < ([singleton_cluster pB, singleton_cluster pC] : List cluster_t).length →
        cluster_distance ([singleton_cluster pB, singleton_cluster pC].getD a default)
            ([singleton_cluster pB, singleton_cluster pC].getD b default) ≤
          cluster_distance ([singleton_cluster pB, singleton_cluster pC].getD i default)
            ([singleton_cluster pB, singleton_cluster pC].getD j default)) ∧
      (∀ i j, i < j → j < ([singleton_cluster pB, singleton_cluster pC] : List cluster_t).length →
        cluster_distance ([singleton_cluster pB, singleton_cluster pC].getD i default)
            ([singleton_cluster pB, singleton_cluster pC].getD j default) ≤
          cluster_distance ([singleton_cluster pB, singleton_cluster pC].getD a default)
            ([singleton_cluster pB, singleton_cluster pC].getD b default) →
        (a = i ∧ b = j) ∨ a < i ∨ (a = i ∧ b < j)) :=
  find_neighbours_spec [singleton_cluster pB, singleton_cluster pC]
    (by decide) (by simp [singleton_cluster])

/-! ### The end-to-end scenario (C8) -/

theorem dist_singleton (o1 o2 : obj_t) :
    cluster_distance (singleton_cluster o1) (singleton_cluster o2) =
      obj_distance o1 o2 := by
  simp [cluster_distance, singleton_cluster]

theorem obj_distance_pA_pB : obj_distance pA pB = 10 := by
  show Real.sqrt ((pA.x - pB.x) ^ 2 + (pA.y - pB.y) ^ 2) = 10
  rw [show (pA.x - pB.x) ^ 2 + (pA.y - pB.y) ^ 2 = (10 : ℝ) ^ 2 by
    norm_num [pA, pB]]
  exact Real.sqrt_sq (by norm_num)

theorem obj_distance_pA_pC : obj_distance pA pC = 11 := by
  show Real.sqrt ((pA.x - pC.x) ^ 2 + (pA.y - pC.y) ^ 2) = 11
  rw [show (pA.x - pC.x) ^ 2 + (pA.y - pC.y) ^ 2 = (11 : ℝ) ^ 2 by
    norm_num [pA, pC]]
  exact Real.sqrt_sq (by norm_num)

theorem obj_distance_pB_pC : obj_distance pB pC = 1 := by
  show Real.sqrt ((pB.x - pC.x) ^ 2 + (pB.y - pC.y) ^ 2) = 1
  rw [show (pB.x - pC.x) ^ 2 + (pB.y - pC.y) ^ 2 = (1 : ℝ) ^ 2 by
    norm_num [pB, pC]]
  exact Real.sqrt_sq (by norm_num)

theorem demo_d01 : pair_distance demo_input (0, 1) = 10 := by
  show cluster_distance (singleton_cluster pA) (singleton_cluster pB) = 10
  rw [dist_singleton, obj_distance_pA_pB]

theorem demo_d02 : pair_distance demo_input (0, 2) = 11 := by
  show cluster_distance (singleton_cluster pA) (singleton_cluster pC) = 11
  rw [dist_singleton, obj_distance_pA_pC]

theorem demo_d12 : pair_distance demo_input (1, 2) = 1 := by
  show cluster_distance (singleton_cluster pB) (singleton_cluster pC) = 1
  rw [dist_singleton, obj_distance_pB_pC]

theorem demo_find : find_neighbours demo_input = some (1, 2) := by
  unfold find_neighbours
  rw [show pairList demo_input.length = [(0, 1), (0, 2), (1, 2)] from by decide]
  show some (foldMin (pair_distance demo_input) (0, 1) [(0, 2), (1, 2)]) = some (1, 2)
  rw [foldMin_cons, if_neg (by rw [demo_d02, demo_d01]; norm_num),
    foldMin_cons, if_pos (by rw [demo_d12, demo_d01]; norm_num), foldMin_nil]

theorem demo_merged_obj :
    (merge_clusters (singleton_cluster pB) (singleton_cluster pC)).obj = [pB, pC] := by
  have h1 : (merge_clusters (singleton_cluster pB) (singleton_cluster pC)).obj
      = ((singleton_cluster pB).obj ++ (singleton_cluster pC).obj).mergeSort le_id := by
    show ((singleton_cluster pC).obj.foldl append_cluster
      (singleton_cluster pB)).obj.mergeSort le_id = _
    rw [foldl_append_obj]
  rw [h1]
  show ([pB] ++ [pC] : List obj_t).mergeSort le_id = [pB, pC]
  rw [List.singleton_append]
  exact List.mergeSort_of_sorted (by decide)

theorem demo_step : mergeStep demo_input =
    [singleton_cluster pA, merge_clusters (singleton_cluster pB) (singleton_cluster pC)] := by
  unfold mergeStep
  rw [demo_find]
  rfl

theorem mergeReduceAux_stop (fuel : Nat) (carr : List cluster_t) (t : Nat)
    (h : carr.length ≤ t) : mergeReduceAux fuel carr t = carr := by
  cases fuel with
  | zero => rfl
  | succ f =>
    show (if carr.length ≤ t then carr else mergeReduceAux f (mergeStep carr) t) = carr
    rw [if_pos h]

theorem mergeReduceAux_go (f : Nat) (carr : List cluster_t) (t : Nat)
    (h : ¬ carr.length ≤ t) :
    mergeReduceAux (f + 1) carr t = mergeReduceAux f (mergeStep carr) t := by
  show (if carr.length ≤ t then carr else mergeReduceAux f (mergeStep carr) t) = _
  rw [if_neg h]

/-- C8: on the three-point input `(1,0,0)`, `(2,10,0)`, `(3,11,0)` loaded as
singleton clusters with target count 2, the merge loop stops with exactly two
clusters: the first containing only point 1 and the second containing points 2
and 3. -/
theorem mergeReduce_demo :
    (mergeReduce demo_input 2).length = 2 ∧
    ((mergeReduce demo_input 2).getD 0 default).obj = [pA] ∧
    ((mergeReduce demo_input 2).getD 1 default).obj = [pB, pC] := by
  have hrun : mergeReduce demo_input 2 =
      [singleton_cluster pA,
        merge_clusters (singleton_cluster pB) (singleton_cluster pC)] := by
    show mergeReduceAux 3 demo_input 2 = _
    rw [mergeReduceAux_go 2 demo_input 2 (by decide), demo_step,
      mergeReduceAux_stop 2 _ 2 (by decide)]
  rw [hrun]
  refine ⟨rfl, rfl, ?_⟩
  show (merge_clusters (singleton_cluster pB) (singleton_cluster pC)).obj = [pB, pC]
  exact demo_merged_obj

end Proj3
